import Mathlib

/-!
Verification of the BitTemple ANN subsystem against its specification.

The development shallowly embeds the Python sources of the repository:

* `src/bitharbor/ann/vector_store.py` — the append-only `VectorStore`
  (modelled at the byte level: a file is its size in bytes, a record is
  `4 * dim` bytes of little-endian float32);
* `src/bitharbor/utils/hashing.py` — `canonicalize_vector` (modelled over
  the reals: float32 arithmetic is idealised as exact real arithmetic,
  `np.round(x, 6)` as round-half-even on `10^6 * x`);
* `src/bitharbor/ann/service.py` — the eager `AnnService`
  (`_ensure_index_consistency`, `add_embedding`, `search`, `resolve_media`).
  The backing store is modelled as the ordered list of its rows (an untorn
  file), the faiss HNSW index as the list of inserted vectors together with
  an opaque candidate-producing function, and the relational `IdMap` as a
  lookup function `row id → Option (vector hash, media id)`.
-/

namespace BitTemple

/-- Python exception kinds raised by the modelled code paths. -/
inductive PyError
  | valueError (msg : String)
  | runtimeError (msg : String)
  | indexError (msg : String)
  deriving Repr, DecidableEq

/-! ## VectorStore, byte level (`src/bitharbor/ann/vector_store.py`) -/

/-- Record size in bytes: `dim * np.dtype(np.float32).itemsize`, i.e. `4 * dim`
(`VectorStore.__init__`, `self.record_bytes`). -/
def recordBytes (dim : Nat) : Nat := 4 * dim

/-- `VectorStore.row_count` (vector_store.py lines 20-24): the stat-ed file
size floor-divided by the record size, with an early `0` for an empty file.
The source performs plain integer division `size // self.record_bytes`. -/
def rowCount (dim size : Nat) : Nat :=
  if size = 0 then 0 else size / recordBytes dim

/-- Spec-side variant of `row_count`, written from the spec words for the
refinement comparison of claim C1: "a size not evenly divisible by the record
size signals a torn write and must be reported as corruption, not silently
truncated". It errors on a torn file instead of flooring. -/
def rowCountSpec (dim size : Nat) : Except PyError Nat :=
  if recordBytes dim ∣ size then Except.ok (size / recordBytes dim)
  else Except.error (PyError.runtimeError "torn vector store file")

/-- `VectorStore.append` (vector_store.py lines 26-32) at the byte level.
The first component is the resulting file size; the second is the returned
row id, or the `ValueError` raised on a dimension mismatch.  The dimension
check (`vec.shape[-1] != self.dim`) happens before the file is opened, so on
a mismatch the file size is unchanged.  On success the source appends one
`record_bytes`-sized record and returns `self.row_count() - 1` recomputed
from the new file size. -/
def appendVS (dim size : Nat) (v : List ℝ) : Nat × Except PyError Nat :=
  if v.length ≠ dim then
    (size, Except.error (PyError.valueError "Vector dim mismatch"))
  else
    (size + recordBytes dim, Except.ok (rowCount dim (size + recordBytes dim) - 1))

/-! ## AnnService data model (`src/bitharbor/ann/service.py`) -/

/-- The `AnnResult` dataclass (service.py lines 17-22). -/
structure AnnResult where
  row_id : Nat
  score : ℝ
  vector_hash : Option String := none
  media_id : Option String := none

/-- State of the eager `AnnService`: the ordered rows of the (untorn)
`VectorStore` file and the vectors inserted into the faiss HNSW index in
insertion order, so that `index.size()` is the length of `index` and the
index id of a vector is its position. -/
structure AnnState where
  store : List (List ℝ)
  index : List (List ℝ)

/-- Index every requested row, raising `IndexError` on the first id at or
past the row count — the behavior of `mm[row_ids]` fancy indexing. -/
def readRowsAux (store : List (List ℝ)) : List Nat → Except PyError (List (List ℝ))
  | [] => Except.ok []
  | i :: rest =>
    if h : i < store.length then
      match readRowsAux store rest with
      | Except.ok vs => Except.ok (store.get ⟨i, h⟩ :: vs)
      | Except.error e => Except.error e
    else Except.error (PyError.indexError "index out of bounds")

/-- `VectorStore.read_rows` (vector_store.py lines 34-41): an empty id list
or an empty store gives an empty result; otherwise numpy fancy indexing,
which raises `IndexError` on a row id at or past `row_count()` (the ids
passed in by the service are already filtered to be nonnegative). -/
def readRows (store : List (List ℝ)) (rowIds : List Nat) : Except PyError (List (List ℝ)) :=
  if rowIds = [] then Except.ok []
  else if store.length = 0 then Except.ok []
  else readRowsAux store rowIds

/-- `AnnService._ensure_index_consistency` (service.py lines 43-52): return
unchanged when both the store and the index are empty; when the sizes
disagree, reset the index and re-add every stored vector (`read_all`), which
leaves the index holding exactly the store rows; otherwise leave the state
alone.  Persistence to disk is not modelled. -/
def ensureIndexConsistency (s : AnnState) : AnnState :=
  if s.store.length = 0 ∧ s.index.length = 0 then s
  else if s.store.length ≠ s.index.length then { s with index := s.store }
  else s

/-- `AnnService.add_embedding` (service.py lines 54-70): append to the
vector store (its `ValueError` on a dimension mismatch propagates), add to
the index — faiss assigns the id `index.size()` before the insert — and
raise `RuntimeError` when that id disagrees with the store row id.  The
`IdMap` insert and the index persist are not modelled (the session flush is
treated as succeeding; a flush failure would surface as an error, not as a
successful return).  On a raise the mutated in-process state is discarded,
matching the fact that the caller sees the exception, not a row id. -/
def addEmbedding (dim : Nat) (s : AnnState) (vector : List ℝ) :
    Except PyError (Nat × AnnState) :=
  if vector.length ≠ dim then
    Except.error (PyError.valueError "Vector dim mismatch")
  else
    let store2 := s.store ++ [vector]
    let rowId := store2.length - 1
    let indexId := s.index.length
    if indexId ≠ rowId then
      Except.error (PyError.runtimeError "Index id mismatch with vector store row id.")
    else
      Except.ok (rowId, { store := store2, index := s.index ++ [vector] })

/-- Dot product `row @ q` of two equal-length float vectors. -/
def dotList (a b : List ℝ) : ℝ := (List.zipWith (fun x y => x * y) a b).sum

/-- Python slice `l[:k]` semantics on a list, for an `int` bound `k`: a
nonnegative `k` keeps the first `k` elements, a negative `k` drops the last
`-k` elements. -/
def pySlice {α : Type} (l : List α) (k : Int) : List α :=
  if 0 ≤ k then l.take k.toNat else l.take (l.length - (-k).toNat)

/-- Sum of squares of the entries of a vector. -/
def sumSq (v : List ℝ) : ℝ := (v.map (fun x => x ^ 2)).sum

/-- L2 norm `np.linalg.norm(v)`. -/
noncomputable def l2norm (v : List ℝ) : ℝ := Real.sqrt (sumSq v)

/-- Round-half-even on the reals, the rounding mode of `np.round`: a value
exactly halfway between two integers goes to the even one, every other value
to the nearest integer. -/
noncomputable def rhe (x : ℝ) : ℤ :=
  if Int.fract x = 1 / 2 then
    (if Even ⌊x⌋ then ⌊x⌋ else ⌊x⌋ + 1)
  else round x

/-- `np.round(x, decimals=6)`: round-half-even at the sixth decimal.  The
source derives `decimals = max(0, int(round(-math.log10(round_eps)))) = 6`
from the default `round_eps = 1e-6` (hashing.py lines 28-30). -/
noncomputable def round6 (x : ℝ) : ℝ := ((rhe (10 ^ 6 * x) : ℝ)) / 10 ^ 6

/-- `canonicalize_vector` (hashing.py lines 19-34), real-valued model of the
float32 pipeline: L2-normalize unless the norm is zero, then round each
component to six decimals.  The blake3 hash is taken over the byte encoding
of this rounded vector, so two inputs get the same hash exactly when their
canonical vectors are equal; the hash is therefore modelled by the canonical
vector itself. -/
noncomputable def canonicalizeVector (v : List ℝ) : List ℝ :=
  let vec := if l2norm v > 0 then v.map (fun x => x / l2norm v) else v
  vec.map round6

/-- Argsort of the similarity scores in descending order, modelling
`np.argsort(-sims)`: a permutation of `range sims.length` ordered by
non-increasing score (the source's quicksort and this insertion sort may
order ties differently; no claim depends on tie order). -/
noncomputable def argsortDesc (sims : List ℝ) : List Nat :=
  @List.insertionSort Nat (fun i j => sims.getD i 0 ≥ sims.getD j 0)
    (fun _ _ => Classical.dec _) (List.range sims.length)

/-- Query normalization in `search` (service.py lines 78-80): divide by
the L2 norm unless it is zero, in which case the query is left untouched. -/
noncomputable def normalizeQuery (q : List ℝ) : List ℝ :=
  if l2norm q > 0 then q.map (fun x => x / l2norm q) else q

/-- Candidate-id filtering in `search` (service.py line 84):
`[int(idx) for idx in indices if idx >= 0]` — faiss pads missing
candidates with `-1`. -/
def validCandidateIds (indices : List Int) : List Nat :=
  (indices.filter (fun i => decide (0 ≤ i))).map Int.toNat

/-- Result assembly in `search` (service.py lines 90-92): order the refined
scores descending with `np.argsort(-sims)`, truncate with the Python slice
`[:k]`, and build one `AnnResult` per kept position. -/
noncomputable def refineResults (validIds : List Nat) (sims : List ℝ) (k : Int) :
    List AnnResult :=
  (pySlice (argsortDesc sims) k).map
    (fun i => AnnResult.mk (validIds.getD i 0) (sims.getD i 0) none none)

/-- `AnnService.search` (service.py lines 72-92).  `indexSearch` stands for
the opaque faiss call `self.index.search(q, candidates_k)` returning raw
candidate indices, and `refineCandidates` for
`self.settings.ann.refine_candidates`.  The body follows the source: empty
index short-circuit, query normalization, over-fetch with
`max(k, refine_candidates)`, filtering of negative ids, the guarded
`read_rows` refinement reads (an in-range row id set succeeds; an
out-of-range id raises `IndexError`), the `vectors.size == 0` guard, exact
re-scoring against the store rows, descending sort and the `[:k]` slice. -/
noncomputable def annSearch (indexSearch : List ℝ → Int → List Int)
    (refineCandidates : Nat) (s : AnnState) (queryVector : List ℝ) (k : Int) :
    Except PyError (List AnnResult) :=
  if s.index.length = 0 then Except.ok []
  else if validCandidateIds
      (indexSearch (normalizeQuery queryVector) (max k (refineCandidates : Int))) = [] then
    Except.ok []
  else
    Except.bind
      (readRows s.store (validCandidateIds
        (indexSearch (normalizeQuery queryVector) (max k (refineCandidates : Int)))))
      (fun vectors =>
        if vectors.length = 0 then Except.ok []
        else
          Except.ok (refineResults
            (validCandidateIds
              (indexSearch (normalizeQuery queryVector) (max k (refineCandidates : Int))))
            (vectors.map (fun row => dotList row (normalizeQuery queryVector))) k))

/-- Default `AnnResult`, used only as the out-of-range placeholder of
positional `getD` indexing in theorem statements. -/
def annDefault : AnnResult := { row_id := 0, score := 0 }

/-- `AnnService.resolve_media` (service.py lines 94-114).  `lookup` stands
for the batched `IdMap` query keyed by row id (the table has a unique
constraint on `row_id`, so the dict built from the result rows is a
function).  Each input candidate yields exactly one output `AnnResult`, with
`mapping.get(row_id, (None, None))` filling the hash and media id. -/
def resolveMedia (lookup : Nat → Option (String × String))
    (results : List AnnResult) : List AnnResult :=
  results.map (fun res =>
    match lookup res.row_id with
    | some (vectorHash, mediaId) =>
        { row_id := res.row_id, score := res.score,
          vector_hash := some vectorHash, media_id := some mediaId }
    | none =>
        { row_id := res.row_id, score := res.score,
          vector_hash := none, media_id := none })

/-! ## Claim C1: torn-file detection in row_count -/

/-- Claim C1 counterexample: a 12-byte file with `dim = 2` (record size 8)
is torn, yet `row_count` returns the floor `1` — exactly the silent
truncation the claim rules out — while the spec-side variant reports
corruption.  The claim "row_count() reports this as corruption (a torn
write) rather than silently truncating" is therefore false on the code. -/
theorem C1_counterexample :
    ¬ (recordBytes 2 ∣ 12) ∧ rowCount 2 12 = 1 ∧
      rowCountSpec 2 12 = Except.error (PyError.runtimeError "torn vector store file") := by
  refine ⟨by decide, by decide, rfl⟩

/-- Claim C1 amended: for every file whose size is not a multiple of the
record size, `row_count` silently truncates to the floor of the division
and reports no corruption. -/
theorem C1_rowCount_truncates (dim size : Nat) (hdim : 0 < dim)
    (htorn : ¬ (recordBytes dim ∣ size)) :
    rowCount dim size = size / recordBytes dim := by
  have hsize : size ≠ 0 := by
    intro h
    exact htorn (h ▸ dvd_zero _)
  unfold rowCount
  rw [if_neg hsize]

/-- Witness for C1: the amended theorem applied at `dim = 2`, `size = 12`. -/
theorem C1_witness :
    0 < 2 ∧ ¬ (recordBytes 2 ∣ 12) ∧ rowCount 2 12 = 12 / recordBytes 2 :=
  ⟨by decide, by decide, C1_rowCount_truncates 2 12 (by decide) (by decide)⟩

/-! ## Claim C5: append monotonicity and dimension rejection -/

/-- Claim C5: on a store with `row_count() = n`, appending a vector of the
correct dimension returns row id `n` and bumps `row_count` to `n + 1`
(this holds even for a torn file, since the returned id is recomputed from
the new size); a vector of the wrong dimension is rejected with
`ValueError` before anything is written, leaving the file size unchanged. -/
theorem C5_append_monotonic (dim size : Nat) (v : List ℝ) (n : Nat)
    (hdim : 0 < dim) (hn : rowCount dim size = n) :
    (v.length = dim →
      appendVS dim size v = (size + recordBytes dim, Except.ok n) ∧
      rowCount dim (size + recordBytes dim) = n + 1) ∧
    (v.length ≠ dim →
      appendVS dim size v = (size, Except.error (PyError.valueError "Vector dim mismatch"))) := by
  have hrb : 0 < recordBytes dim := by
    unfold recordBytes
    omega
  have hdiv : size / recordBytes dim = n := by
    unfold rowCount at hn
    by_cases hs : size = 0
    · subst hs
      simp at hn
      subst hn
      simp
    · rwa [if_neg hs] at hn
  have hrc : rowCount dim (size + recordBytes dim) = n + 1 := by
    unfold rowCount
    rw [if_neg (by omega), Nat.add_div_right _ hrb, hdiv]
  constructor
  · intro hlen
    constructor
    · unfold appendVS
      rw [if_neg (by omega), hrc]
      simp
    · exact hrc
  · intro hlen
    unfold appendVS
    rw [if_pos hlen]

/-- Witness for C5: a store of one 2-dimensional row (`size = 8`), appending
the in-dimension vector `[1, 2]`. -/
theorem C5_witness :
    0 < 2 ∧ rowCount 2 8 = 1 ∧
      (appendVS 2 8 [(1 : ℝ), 2] = (8 + recordBytes 2, Except.ok 1) ∧
        rowCount 2 (8 + recordBytes 2) = 1 + 1) :=
  ⟨by decide, by decide,
    (C5_append_monotonic 2 8 [(1 : ℝ), 2] 1 (by decide) (by decide)).1 (by simp)⟩

/-! ## Claim C9: add_embedding preserves the size invariant -/

/-- Claim C9: in the eager service, a successful `add_embedding` returns
the row id `store.length` (the id faiss assigned matches the store row id)
and leaves `index.size() = row_count()`; when the two ids differ — which is
exactly the case `index.size() ≠ row_count()` at entry — the call raises
`RuntimeError` instead of returning. -/
theorem C9_addEmbedding_invariant (dim : Nat) (s : AnnState) (v : List ℝ) :
    (∀ rid s2, addEmbedding dim s v = Except.ok (rid, s2) →
      rid = s.store.length ∧ s2.store.length = s.store.length + 1 ∧
        s2.index.length = s2.store.length) ∧
    (s.index.length ≠ s.store.length → v.length = dim →
      addEmbedding dim s v =
        Except.error (PyError.runtimeError "Index id mismatch with vector store row id.")) := by
  have hrow : (s.store ++ [v]).length - 1 = s.store.length := by
    simp
  constructor
  · intro rid s2 hok
    unfold addEmbedding at hok
    by_cases hlen : v.length ≠ dim
    · rw [if_pos hlen] at hok
      exact absurd hok (by simp)
    · rw [if_neg hlen] at hok
      simp only at hok
      by_cases hmis : s.index.length ≠ (s.store ++ [v]).length - 1
      · rw [if_pos hmis] at hok
        exact absurd hok (by simp)
      · rw [if_neg hmis] at hok
        rw [hrow] at hmis
        push_neg at hmis
        injection hok with hok
        injection hok with h1 h2
        subst h1
        subst h2
        refine ⟨by simp [hrow], by simp, by simp [hmis]⟩
  · intro hmis hlen
    unfold addEmbedding
    rw [if_neg (by omega)]
    simp only
    rw [if_pos (by rw [hrow]; exact hmis)]

/-- Witness for C9: adding a 1-dimensional vector to the empty service state
succeeds with row id 0 and equal sizes afterward. -/
theorem C9_witness :
    0 = (AnnState.mk [] []).store.length ∧
      (AnnState.mk [[(2 : ℝ)]] [[(2 : ℝ)]]).store.length =
        (AnnState.mk [] []).store.length + 1 ∧
      (AnnState.mk [[(2 : ℝ)]] [[(2 : ℝ)]]).index.length =
        (AnnState.mk [[(2 : ℝ)]] [[(2 : ℝ)]]).store.length :=
  (C9_addEmbedding_invariant 1 (AnnState.mk [] []) [(2 : ℝ)]).1 0
    (AnnState.mk [[(2 : ℝ)]] [[(2 : ℝ)]]) rfl

/-! ## Claim C3 and C10: resolve_media -/

/-- Claim C3 counterexample: a candidate whose row id has no `IdMap` entry
is not omitted — `resolve_media` keeps it, with `vector_hash` and
`media_id` set to `None`.  The returned list has one entry (for row id 5),
not zero, refuting "row ids that have no IdMap entry are omitted from the
result". -/
theorem C3_counterexample :
    resolveMedia (fun _ => none)
        [{ row_id := 5, score := 1, vector_hash := none, media_id := none }] =
      [{ row_id := 5, score := 1, vector_hash := none, media_id := none }] ∧
    (resolveMedia (fun _ => none)
        [{ row_id := 5, score := 1, vector_hash := none, media_id := none }]).length = 1 :=
  ⟨rfl, rfl⟩

/-- Claim C3 amended: row ids with no `IdMap` entry are never raised as an
error, but they are not dropped either: each such candidate stays in the
result (one output per input) with `vector_hash = None` and
`media_id = None`. -/
theorem C3_resolveMedia_keeps_unmapped (lookup : Nat → Option (String × String))
    (results : List AnnResult) :
    (resolveMedia lookup results).length = results.length ∧
    ∀ i, i < results.length →
      lookup ((results.getD i annDefault).row_id) = none →
        ((resolveMedia lookup results).getD i annDefault).vector_hash = none ∧
        ((resolveMedia lookup results).getD i annDefault).media_id = none := by
  constructor
  · simp [resolveMedia]
  · intro i hi hnone
    have hgd : results.getD i annDefault = results[i] := by
      simp [List.getD_eq_getElem?_getD, List.getElem?_eq_getElem hi]
    have hi2 : i < (resolveMedia lookup results).length := by
      simpa [resolveMedia] using hi
    have hout : (resolveMedia lookup results).getD i annDefault =
        (resolveMedia lookup results).get ⟨i, hi2⟩ := by
      simp [List.getD_eq_getElem?_getD, List.getElem?_eq_getElem hi2]
    rw [hgd] at hnone
    rw [hout]
    simp only [List.get_eq_getElem, resolveMedia, List.getElem_map]
    rw [hnone]
    simp

/-- Witness for C3: one candidate, empty mapping; its output fields are
`None` and it is still present. -/
theorem C3_witness :
    0 < 1 ∧
      ((resolveMedia (fun _ => none) [annDefault]).getD 0 annDefault).vector_hash = none ∧
      ((resolveMedia (fun _ => none) [annDefault]).getD 0 annDefault).media_id = none :=
  ⟨by decide,
    ((C3_resolveMedia_keeps_unmapped (fun _ => none) [annDefault]).2 0 (by decide) rfl).1,
    ((C3_resolveMedia_keeps_unmapped (fun _ => none) [annDefault]).2 0 (by decide) rfl).2⟩

/-- Claim C10: `resolve_media` returns exactly one result per input
candidate, in input order: at every position the output keeps the
candidate's `row_id` and `score`, and fills `vector_hash` / `media_id`
from the mapping — both `None` exactly when the row id has no entry. -/
theorem C10_resolveMedia_frame (lookup : Nat → Option (String × String))
    (results : List AnnResult) :
    (resolveMedia lookup results).length = results.length ∧
    ∀ i, i < results.length →
      ((resolveMedia lookup results).getD i annDefault).row_id =
          (results.getD i annDefault).row_id ∧
      ((resolveMedia lookup results).getD i annDefault).score =
          (results.getD i annDefault).score ∧
      (lookup ((results.getD i annDefault).row_id) = none →
        ((resolveMedia lookup results).getD i annDefault).vector_hash = none ∧
        ((resolveMedia lookup results).getD i annDefault).media_id = none) ∧
      (∀ h m, lookup ((results.getD i annDefault).row_id) = some (h, m) →
        ((resolveMedia lookup results).getD i annDefault).vector_hash = some h ∧
        ((resolveMedia lookup results).getD i annDefault).media_id = some m) := by
  constructor
  · simp [resolveMedia]
  · intro i hi
    have hgd : results.getD i annDefault = results[i] := by
      simp [List.getD_eq_getElem?_getD, List.getElem?_eq_getElem hi]
    have hi2 : i < (resolveMedia lookup results).length := by
      simpa [resolveMedia] using hi
    have hout : (resolveMedia lookup results).getD i annDefault =
        (resolveMedia lookup results).get ⟨i, hi2⟩ := by
      simp [List.getD_eq_getElem?_getD, List.getElem?_eq_getElem hi2]
    rw [hgd, hout]
    simp only [List.get_eq_getElem, resolveMedia, List.getElem_map]
    rcases hcase : lookup results[i].row_id with _ | pair
    · simp
    · rcases pair with ⟨h0, m0⟩
      refine ⟨rfl, rfl, by simp, ?_⟩
      intro h m hsome
      injection hsome with hsome
      rw [Prod.mk.injEq] at hsome
      simp [hsome.1, hsome.2]

/-- Witness for C10: one mapped candidate (row 3) resolved against a
mapping that knows row 3. -/
theorem C10_witness :
    0 < 1 ∧
      ((resolveMedia (fun n => if n = 3 then some ("h0", "m0") else none)
          [{ row_id := 3, score := 1 }]).getD 0 annDefault).row_id =
        (([{ row_id := 3, score := 1 }] : List AnnResult).getD 0 annDefault).row_id :=
  ⟨by decide,
    ((C10_resolveMedia_frame (fun n => if n = 3 then some ("h0", "m0") else none)
      [{ row_id := 3, score := 1 }]).2 0 (by decide)).1⟩

/-! ## Search-pipeline helper lemmas -/

/-- A search on a state whose index is empty returns the empty result at
the first guard, whatever the store holds. -/
theorem annSearch_empty_index (f : List ℝ → Int → List Int) (rc : Nat)
    (store : List (List ℝ)) (q : List ℝ) (k : Int) :
    annSearch f rc (AnnState.mk store []) q k = Except.ok [] := by
  simp [annSearch]

/-- Binding a successful read applies the continuation. -/
theorem except_bind_ok {ε α β : Type} (a : α) (g : α → Except ε β) :
    Except.bind (Except.ok a) g = g a := rfl

/-- Row reads succeed when every requested id is inside the store. -/
theorem readRows_ok (store : List (List ℝ)) (ids : List Nat)
    (h : ∀ i ∈ ids, i < store.length) :
    ∃ vecs, readRows store ids = Except.ok vecs := by
  unfold readRows
  by_cases h0 : ids = []
  · simp [h0]
  · rw [if_neg h0]
    by_cases h1 : store.length = 0
    · simp [h1]
    · rw [if_neg h1]
      clear h0 h1
      induction ids with
      | nil => exact ⟨[], rfl⟩
      | cons a t ih =>
        obtain ⟨vecs, hvecs⟩ := ih (fun i hi => h i (List.mem_cons_of_mem a hi))
        refine ⟨store.get ⟨a, h a (List.mem_cons_self a t)⟩ :: vecs, ?_⟩
        unfold readRowsAux
        rw [dif_pos (h a (List.mem_cons_self a t)), hvecs]

/-- Any successful search result is either empty or the truncated,
descending-sorted refinement of some candidate set. -/
theorem annSearch_shape (f : List ℝ → Int → List Int) (rc : Nat) (s : AnnState)
    (q : List ℝ) (k : Int) (res : List AnnResult)
    (hok : annSearch f rc s q k = Except.ok res) :
    res = [] ∨ ∃ sims validIds, res = refineResults validIds sims k := by
  unfold annSearch at hok
  split at hok
  · injection hok with hok
    exact Or.inl hok.symm
  · split at hok
    · injection hok with hok
      exact Or.inl hok.symm
    · rcases hr : readRows s.store (validCandidateIds
          (f (normalizeQuery q) (max k (rc : Int)))) with e | vecs
      · rw [hr] at hok
        exact absurd hok (by simp [Except.bind])
      · rw [hr] at hok
        simp only [except_bind_ok] at hok
        split at hok
        · injection hok with hok
          exact Or.inl hok.symm
        · injection hok with hok
          exact Or.inr ⟨_, _, hok.symm⟩

/-- Python slicing never returns more than `k` elements for nonnegative
`k`. -/
theorem pySlice_length_le {α : Type} (l : List α) (k : Int) (hk : 0 ≤ k) :
    (pySlice l k).length ≤ k.toNat := by
  simp [pySlice, if_pos hk]

/-- Python slicing of a list yields a sublist. -/
theorem pySlice_sublist {α : Type} (l : List α) (k : Int) :
    (pySlice l k).Sublist l := by
  unfold pySlice
  split_ifs <;> exact List.take_sublist _ _

/-- The argsort permutation is sorted by non-increasing score. -/
theorem argsortDesc_sorted (sims : List ℝ) :
    List.Sorted (fun i j => sims.getD i 0 ≥ sims.getD j 0) (argsortDesc sims) := by
  unfold argsortDesc
  haveI htot : IsTotal Nat (fun i j => sims.getD i 0 ≥ sims.getD j 0) := by
    constructor
    intro a b
    rcases le_total (sims.getD a 0) (sims.getD b 0) with h | h
    · exact Or.inr h
    · exact Or.inl h
  haveI htrans : IsTrans Nat (fun i j => sims.getD i 0 ≥ sims.getD j 0) := by
    constructor
    intro a b c hab hbc
    exact le_trans hbc hab
  exact List.sorted_insertionSort _ _

/-- Scores of the assembled result list are non-increasing. -/
theorem result_scores_sorted (sims : List ℝ) (validIds : List Nat) (k : Int) :
    List.Sorted (fun a b => a ≥ b)
      ((refineResults validIds sims k).map AnnResult.score) := by
  unfold refineResults
  rw [List.map_map]
  have hsorted : List.Sorted (fun i j => sims.getD i 0 ≥ sims.getD j 0)
      (pySlice (argsortDesc sims) k) :=
    List.Pairwise.sublist (pySlice_sublist _ _) (argsortDesc_sorted sims)
  exact List.Pairwise.map _ (fun a b h => h) hsorted

/-- Length bound for the assembled result list, nonnegative `k`. -/
theorem refineResults_length_le (sims : List ℝ) (validIds : List Nat) (k : Int)
    (hk : 0 ≤ k) : (refineResults validIds sims k).length ≤ k.toNat := by
  unfold refineResults
  rw [List.length_map]
  exact pySlice_length_le _ _ hk

/-- With `k = 0` the slice keeps nothing and the result is empty. -/
theorem refineResults_k_zero (validIds : List Nat) (sims : List ℝ) :
    refineResults validIds sims 0 = [] := by
  simp [refineResults, pySlice]

/-- Every id produced by the candidate filter comes from a nonnegative raw
index. -/
theorem mem_validCandidateIds (indices : List Int) (j : Nat)
    (hj : j ∈ validCandidateIds indices) : ∃ i ∈ indices, 0 ≤ i ∧ j = i.toNat := by
  unfold validCandidateIds at hj
  rw [List.mem_map] at hj
  obtain ⟨i, hi, hij⟩ := hj
  rw [List.mem_filter] at hi
  exact ⟨i, hi.1, by simpa using hi.2, hij.symm⟩

/-- Dot product against the zero vector vanishes. -/
theorem dotList_zero_right (a : List ℝ) (d : Nat) :
    dotList a (List.replicate d 0) = 0 := by
  induction a generalizing d with
  | nil => simp [dotList]
  | cons x xs ih =>
    cases d with
    | zero => simp [dotList]
    | succ d2 =>
      simp only [List.replicate_succ, dotList, List.zipWith_cons_cons, List.sum_cons]
      have := ih d2
      unfold dotList at this
      rw [this]
      ring

/-- The zero vector has zero sum of squares. -/
theorem sumSq_replicate_zero (d : Nat) : sumSq (List.replicate d (0 : ℝ)) = 0 := by
  simp [sumSq]

/-- The zero vector has zero L2 norm. -/
theorem l2norm_replicate_zero (d : Nat) : l2norm (List.replicate d (0 : ℝ)) = 0 := by
  simp [l2norm, sumSq_replicate_zero]

/-- Positional read of an all-zero score list, with the zero default. -/
theorem getD_eq_zero_of_all_zero (l : List ℝ) (h : ∀ x ∈ l, x = 0) (i : Nat) :
    l.getD i 0 = 0 := by
  rw [List.getD_eq_getElem?_getD]
  rcases hx : l[i]? with _ | x
  · rfl
  · have : x ∈ l := List.getElem?_mem hx
    simp [h x this]

/-! ## Claim C6: search bounds -/

/-- Claim C6: for every query and every `k ≥ 0` (a natural `k` here, cast
to the Python `int` argument), the eager search result holds at most `k`
entries and its scores are non-increasing, and a search over an empty index
returns the empty list rather than raising.  The error-or-result value is
projected through `toOption.getD []`, so the bound and sortedness cover
every successful return. -/
theorem C6_search_bounds (f : List ℝ → Int → List Int) (rc : Nat)
    (store index : List (List ℝ)) (q : List ℝ) (k : Nat) :
    annSearch f rc (AnnState.mk store []) q k = Except.ok [] ∧
    ((annSearch f rc (AnnState.mk store index) q k).toOption.getD []).length ≤ k ∧
    List.Sorted (fun a b => a ≥ b)
      (((annSearch f rc (AnnState.mk store index) q k).toOption.getD []).map
        AnnResult.score) := by
  refine ⟨annSearch_empty_index f rc store q k, ?_, ?_⟩
  · rcases hv : annSearch f rc (AnnState.mk store index) q k with e | res
    · simp [Except.toOption]
    · rcases annSearch_shape f rc _ q k res hv with h | ⟨sims, validIds, h⟩
      · simp [Except.toOption, h]
      · have hlen : res.length ≤ (k : Int).toNat := by
          rw [h]
          exact refineResults_length_le sims validIds k (by positivity)
        simpa [Except.toOption] using hlen
  · rcases hv : annSearch f rc (AnnState.mk store index) q k with e | res
    · simp [Except.toOption]
    · rcases annSearch_shape f rc _ q k res hv with h | ⟨sims, validIds, h⟩
      · simp [Except.toOption, h]
      · simp only [Except.toOption, Option.getD_some]
        rw [h]
        exact result_scores_sorted sims validIds k

/-! ## Claim C4: k at or below zero, zero-norm query -/

/-- Claim C4 amended: `k = 0` yields the empty result (given that the
index hands back in-range candidate ids, as a consistent index does), and a
zero-norm query is left as the zero vector — its norm is 0, so the rescale
is skipped — and the search proceeds without error, scoring 0 against every
stored vector.  For strictly negative `k` the claim fails: see the
counterexample, where Python's `[:k]` slice keeps all but the last `-k`
entries. -/
theorem C4_search_edge_cases (f : List ℝ → Int → List Int) (rc : Nat)
    (s : AnnState) (q : List ℝ) (k : Int) (d : Nat)
    (hin : ∀ v n i, i ∈ f v n → 0 ≤ i ∧ i.toNat < s.store.length) :
    annSearch f rc s q 0 = Except.ok [] ∧
    l2norm (List.replicate d (0 : ℝ)) = 0 ∧
    ∃ res, annSearch f rc s (List.replicate d (0 : ℝ)) k = Except.ok res ∧
      ∀ r0 ∈ res, r0.score = 0 := by
  have hmem : ∀ (q2 : List ℝ) (ck : Int),
      ∀ j ∈ validCandidateIds (f q2 ck), j < s.store.length := by
    intro q2 ck j hj
    obtain ⟨i, hi, hnn, hji⟩ := mem_validCandidateIds _ j hj
    have := (hin q2 ck i hi).2
    omega
  refine ⟨?_, l2norm_replicate_zero d, ?_⟩
  · unfold annSearch
    by_cases h1 : s.index.length = 0
    · rw [if_pos h1]
    · rw [if_neg h1]
      by_cases h2 : validCandidateIds (f (normalizeQuery q) (max 0 (rc : Int))) = []
      · rw [if_pos h2]
      · rw [if_neg h2]
        obtain ⟨vecs, hvecs⟩ := readRows_ok s.store _ (hmem _ _)
        rw [hvecs]
        simp only [except_bind_ok]
        by_cases h3 : vecs.length = 0
        · rw [if_pos h3]
        · rw [if_neg h3]
          rw [refineResults_k_zero]
  · have hq : normalizeQuery (List.replicate d (0 : ℝ)) = List.replicate d (0 : ℝ) := by
      unfold normalizeQuery
      rw [if_neg]
      rw [l2norm_replicate_zero]
      exact lt_irrefl 0
    unfold annSearch
    rw [hq]
    by_cases h1 : s.index.length = 0
    · rw [if_pos h1]
      exact ⟨[], rfl, by simp⟩
    · rw [if_neg h1]
      by_cases h2 : validCandidateIds (f (List.replicate d (0 : ℝ)) (max k (rc : Int))) = []
      · rw [if_pos h2]
        exact ⟨[], rfl, by simp⟩
      · rw [if_neg h2]
        obtain ⟨vecs, hvecs⟩ := readRows_ok s.store _ (hmem _ _)
        rw [hvecs]
        simp only [except_bind_ok]
        by_cases h3 : vecs.length = 0
        · rw [if_pos h3]
          exact ⟨[], rfl, by simp⟩
        · rw [if_neg h3]
          refine ⟨_, rfl, ?_⟩
          intro r0 hr0
          have hzero : ∀ x ∈ vecs.map (fun row => dotList row (List.replicate d (0 : ℝ))),
              x = 0 := by
            intro x hx
            rw [List.mem_map] at hx
            obtain ⟨row, _, hrow⟩ := hx
            rw [← hrow]
            exact dotList_zero_right row d
          unfold refineResults at hr0
          rw [List.mem_map] at hr0
          obtain ⟨i, _, hi⟩ := hr0
          rw [← hi]
          exact getD_eq_zero_of_all_zero _ hzero i

/-- Witness for C4: a one-row consistent state whose index always proposes
candidate 0; `k = 0` returns empty, and the zero query scores 0. -/
theorem C4_witness :
    annSearch (fun _ _ => [(0 : Int)]) 5
        (AnnState.mk [[(1 : ℝ)]] [[(1 : ℝ)]]) [(1 : ℝ)] 0 = Except.ok [] ∧
    l2norm (List.replicate 1 (0 : ℝ)) = 0 ∧
    ∃ res, annSearch (fun _ _ => [(0 : Int)]) 5
        (AnnState.mk [[(1 : ℝ)]] [[(1 : ℝ)]]) (List.replicate 1 (0 : ℝ)) 3 = Except.ok res ∧
      ∀ r0 ∈ res, r0.score = 0 :=
  C4_search_edge_cases (fun _ _ => [(0 : Int)]) 5
    (AnnState.mk [[(1 : ℝ)]] [[(1 : ℝ)]]) [(1 : ℝ)] 3 1
    (by
      intro v n i hi
      simp only [List.mem_singleton] at hi
      subst hi
      exact ⟨le_refl 0, by simp⟩)

/-! ## Concrete evaluation helpers -/

/-- Argsort of a single score. -/
theorem argsortDesc_singleton (s : ℝ) : argsortDesc [s] = [0] := by
  unfold argsortDesc
  rw [show List.range ([s] : List ℝ).length = [0] from rfl]
  simp only [List.insertionSort, List.orderedInsert]

/-- Argsort of two scores already in non-increasing order. -/
theorem argsortDesc_pair (s t : ℝ) (h : t ≤ s) : argsortDesc [s, t] = [0, 1] := by
  unfold argsortDesc
  rw [show List.range ([s, t] : List ℝ).length = [0, 1] from rfl]
  simp only [List.insertionSort, List.orderedInsert, List.getD_cons_zero,
    List.getD_cons_succ]
  rw [if_pos h]

/-! ## Claim C2: self-heal of a mismatched index -/

/-- Claim C2 amended: the explicit consistency check
(`_ensure_index_consistency`, run at service construction) rebuilds a
mismatched index from `read_all()` so that it holds exactly the store rows
— size `n` — and never touches the store; a search by itself does not
trigger the rebuild: the eager `search` serves the request against the
index as it stands, returning the empty result when that index is empty,
whatever `row_count()` says. -/
theorem C2_selfheal (s : AnnState) (f : List ℝ → Int → List Int) (rc : Nat)
    (q : List ℝ) (k : Int) :
    (ensureIndexConsistency s).store = s.store ∧
    (ensureIndexConsistency s).index.length = s.store.length ∧
    annSearch f rc (AnnState.mk s.store []) q k = Except.ok [] := by
  refine ⟨?_, ?_, annSearch_empty_index f rc s.store q k⟩
  · unfold ensureIndexConsistency
    split_ifs <;> rfl
  · unfold ensureIndexConsistency
    split_ifs with h1 h2
    · rw [h1.1, h1.2]
    · rfl
    · push_neg at h2
      exact h2.symm

/-- Claim C2 counterexample: with a store of one row and an index manually
reset to size 0, the next search is served against the empty index and
returns the empty result — it does not observe a rebuilt index of size 1
(the same search on the healed state returns row 0), so "the index is
rebuilt before any search is served" fails for drift after construction;
only the explicit check rebuilds. -/
theorem C2_counterexample :
    annSearch (fun _ _ => [(0 : Int)]) 5 (AnnState.mk [[(1 : ℝ)]] []) [(0 : ℝ)] 5 =
      Except.ok [] ∧
    annSearch (fun _ _ => [(0 : Int)]) 5 (AnnState.mk [[(1 : ℝ)]] [[(1 : ℝ)]]) [(0 : ℝ)] 5 =
      Except.ok [AnnResult.mk 0 0 none none] ∧
    (ensureIndexConsistency (AnnState.mk [[(1 : ℝ)]] [])).index = [[(1 : ℝ)]] := by
  refine ⟨annSearch_empty_index _ _ _ _ _, ?_, rfl⟩
  have hl0 : l2norm [(0 : ℝ)] = 0 := l2norm_replicate_zero 1
  have hnq : normalizeQuery [(0 : ℝ)] = [(0 : ℝ)] := by
    unfold normalizeQuery
    rw [if_neg]
    rw [hl0]
    exact lt_irrefl 0
  have hvc : validCandidateIds [(0 : Int)] = [0] := rfl
  have hrr : readRows [[(1 : ℝ)]] [0] = Except.ok [[(1 : ℝ)]] := rfl
  have hsims : List.map (fun row => dotList row [(0 : ℝ)]) [[(1 : ℝ)]] = [0] := by
    simp [dotList]
  have hsort : argsortDesc [(0 : ℝ)] = [0] := argsortDesc_singleton 0
  have href : refineResults [0] [(0 : ℝ)] 5 = [AnnResult.mk 0 0 none none] := by
    unfold refineResults
    rw [hsort]
    rw [show pySlice [(0 : Nat)] (5 : Int) = [0] from rfl]
    simp
  simp only [annSearch, hnq, hvc, hrr, except_bind_ok, hsims, href]
  simp

/-! ## Claim C4 counterexample -/

/-- Claim C4 counterexample: `k = -1 ≤ 0`, two rows indexed, both proposed
by the index; the Python slice `[:-1]` keeps all but the last refined
candidate, so the result has one entry instead of being empty — "for every
k ≤ 0, search returns an empty result list" is false on the code. -/
theorem C4_counterexample :
    annSearch (fun _ _ => [(0 : Int), 1]) 5
        (AnnState.mk [[(1 : ℝ)], [(0 : ℝ)]] [[(1 : ℝ)], [(0 : ℝ)]]) [(0 : ℝ)] (-1) =
      Except.ok [AnnResult.mk 0 0 none none] := by
  have hl0 : l2norm [(0 : ℝ)] = 0 := l2norm_replicate_zero 1
  have hnq : normalizeQuery [(0 : ℝ)] = [(0 : ℝ)] := by
    unfold normalizeQuery
    rw [if_neg]
    rw [hl0]
    exact lt_irrefl 0
  have hvc : validCandidateIds [(0 : Int), 1] = [0, 1] := rfl
  have hrr : readRows [[(1 : ℝ)], [(0 : ℝ)]] [0, 1] = Except.ok [[(1 : ℝ)], [(0 : ℝ)]] := rfl
  have hsims : List.map (fun row => dotList row [(0 : ℝ)]) [[(1 : ℝ)], [(0 : ℝ)]] = [0, 0] := by
    simp [dotList]
  have hsort : argsortDesc [(0 : ℝ), 0] = [0, 1] := argsortDesc_pair 0 0 le_rfl
  have href : refineResults [0, 1] [(0 : ℝ), 0] (-1) = [AnnResult.mk 0 0 none none] := by
    unfold refineResults
    rw [hsort]
    rw [show pySlice [(0 : Nat), 1] (-1 : Int) = [0] from rfl]
    simp
  simp only [annSearch, hnq, hvc, hrr, except_bind_ok, hsims, href]
  simp

/-! ## Rounding and norm lemmas for the canonicalizer -/

/-- An integer is its own rounding. -/
theorem rhe_intCast (n : ℤ) : rhe (n : ℝ) = n := by
  unfold rhe
  rw [if_neg (by rw [Int.fract_intCast]; norm_num), round_intCast]

/-- Round-half-even agrees with the nearest integer on the open unit
window around it. -/
theorem rhe_eq_of_bounds (x : ℝ) (m : ℤ) (h1 : (m : ℝ) - 1 / 2 < x)
    (h2 : x < (m : ℝ) + 1 / 2) : rhe x = m := by
  unfold rhe
  rw [if_neg, round_eq, Int.floor_eq_iff]
  · constructor
    · linarith
    · push_cast
      linarith
  · intro hf
    have hx : x = (⌊x⌋ : ℝ) + 1 / 2 := by
      have hfl := Int.floor_add_fract x
      rw [hf] at hfl
      linarith
    have hl : (m : ℝ) - 1 < (⌊x⌋ : ℝ) := by linarith
    have hr : ((⌊x⌋ : ℝ)) < m := by linarith
    have hl2 : m - 1 < ⌊x⌋ := by exact_mod_cast hl
    have hr2 : ⌊x⌋ < m := by exact_mod_cast hr
    omega

/-- Round-half-even moves a value by at most one half. -/
theorem abs_rhe_sub (x : ℝ) : |(rhe x : ℝ) - x| ≤ 1 / 2 := by
  unfold rhe
  split_ifs with hf he
  · have hx : x = (⌊x⌋ : ℝ) + 1 / 2 := by
      have hfl := Int.floor_add_fract x
      rw [hf] at hfl
      linarith
    rw [hx]
    norm_num [abs_le]
  · have hx : x = (⌊x⌋ : ℝ) + 1 / 2 := by
      have hfl := Int.floor_add_fract x
      rw [hf] at hfl
      linarith
    rw [hx]
    push_cast
    norm_num [abs_le]
  · rw [abs_sub_comm]
    exact abs_sub_round x

/-- Rounding to six decimals moves a value by at most half a grid step. -/
theorem abs_round6_sub (x : ℝ) : |round6 x - x| ≤ 1 / 2 / 10 ^ 6 := by
  unfold round6
  have hdiff : ((rhe (10 ^ 6 * x) : ℝ)) / 10 ^ 6 - x =
      ((rhe (10 ^ 6 * x) : ℝ) - 10 ^ 6 * x) / 10 ^ 6 := by
    ring
  rw [hdiff, abs_div, abs_of_pos (by norm_num : (0 : ℝ) < 10 ^ 6)]
  exact (div_le_div_right (by norm_num)).mpr (abs_rhe_sub (10 ^ 6 * x))

/-- A six-decimal grid point is fixed by six-decimal rounding. -/
theorem round6_grid (n : ℤ) : round6 ((n : ℝ) / 10 ^ 6) = (n : ℝ) / 10 ^ 6 := by
  unfold round6
  have hcancel : (10 : ℝ) ^ 6 * ((n : ℝ) / 10 ^ 6) = (n : ℝ) := by
    field_simp
  rw [hcancel, rhe_intCast]

/-- Six-decimal rounding is idempotent. -/
theorem round6_idem (x : ℝ) : round6 (round6 x) = round6 x := by
  rw [show round6 x = ((rhe (10 ^ 6 * x) : ℝ)) / 10 ^ 6 from rfl]
  exact round6_grid _

/-- Unfolding of the sum of squares over a cons cell. -/
theorem sumSq_cons (x : ℝ) (t : List ℝ) : sumSq (x :: t) = x ^ 2 + sumSq t := by
  unfold sumSq
  simp

/-- Sums of squares are nonnegative. -/
theorem sumSq_nonneg (v : List ℝ) : 0 ≤ sumSq v := by
  induction v with
  | nil => exact le_of_eq rfl
  | cons x xs ih =>
    rw [sumSq_cons]
    have := sq_nonneg x
    linarith

/-- Each squared entry is at most the sum of squares. -/
theorem sq_le_sumSq (v : List ℝ) (x : ℝ) (hx : x ∈ v) : x ^ 2 ≤ sumSq v := by
  induction v with
  | nil => exact absurd hx (List.not_mem_nil x)
  | cons a t ih =>
    rw [sumSq_cons]
    rcases List.mem_cons.mp hx with h | h
    · subst h
      have := sumSq_nonneg t
      linarith
    · have := ih h
      have := sq_nonneg a
      linarith

/-- Scaling every entry by `1 / c` scales the sum of squares by `1 / c²`. -/
theorem sumSq_map_div (v : List ℝ) (c : ℝ) :
    sumSq (v.map (fun x => x / c)) = sumSq v / c ^ 2 := by
  induction v with
  | nil => simp [sumSq]
  | cons a t ih =>
    rw [List.map_cons, sumSq_cons, sumSq_cons, ih, div_pow, add_div]

/-- A zero sum of squares forces every entry to vanish. -/
theorem eq_zero_of_sumSq_eq_zero (v : List ℝ) (h : sumSq v = 0) : ∀ x ∈ v, x = 0 := by
  intro x hx
  have h1 := sq_le_sumSq v x hx
  have h2 := sq_nonneg x
  have hz : x ^ 2 = 0 := le_antisymm (h ▸ h1) h2
  exact (pow_eq_zero_iff (by norm_num)).mp hz

/-- Pointwise-close lists with the second one inside the unit ball have
close sums of squares. -/
theorem sumSq_sub_le (e : ℝ) (he : 0 ≤ e) (w u : List ℝ)
    (hf : List.Forall₂ (fun a b => |a - b| ≤ e ∧ |b| ≤ 1) w u) :
    |sumSq w - sumSq u| ≤ w.length * (2 * e + e ^ 2) := by
  induction hf with
  | nil => simp [sumSq]
  | @cons a b w2 u2 hab hrest ih =>
    have h2b : |a + b| ≤ e + 2 := by
      have h3 : a + b = (a - b) + 2 * b := by ring
      rw [h3]
      calc |(a - b) + 2 * b| ≤ |a - b| + |2 * b| := abs_add _ _
        _ = |a - b| + 2 * |b| := by rw [abs_mul]; norm_num
        _ ≤ e + 2 * 1 := by
            have hb1 := hab.1
            have hb2 := hab.2
            linarith
        _ = e + 2 := by ring
    have h1 : |a ^ 2 - b ^ 2| ≤ 2 * e + e ^ 2 := by
      calc |a ^ 2 - b ^ 2| = |a - b| * |a + b| := by
            rw [← abs_mul]
            ring_nf
        _ ≤ e * (e + 2) := mul_le_mul hab.1 h2b (abs_nonneg _) he
        _ = 2 * e + e ^ 2 := by ring
    rw [sumSq_cons, sumSq_cons]
    calc |a ^ 2 + sumSq w2 - (b ^ 2 + sumSq u2)|
        ≤ |a ^ 2 - b ^ 2| + |sumSq w2 - sumSq u2| := by
          have hsplit : a ^ 2 + sumSq w2 - (b ^ 2 + sumSq u2) =
              (a ^ 2 - b ^ 2) + (sumSq w2 - sumSq u2) := by ring
          rw [hsplit]
          exact abs_add _ _
      _ ≤ (2 * e + e ^ 2) + w2.length * (2 * e + e ^ 2) := add_le_add h1 ih
      _ = (w2.length + 1) * (2 * e + e ^ 2) := by ring
      _ = (a :: w2).length * (2 * e + e ^ 2) := by
          rw [List.length_cons]
          push_cast
          ring

/-- The square root of a nonnegative number is at least as close to 1 as
the number itself. -/
theorem sqrt_near_one (x : ℝ) (hx : 0 ≤ x) : |Real.sqrt x - 1| ≤ |x - 1| := by
  have hs : 0 ≤ Real.sqrt x := Real.sqrt_nonneg x
  have hsq : Real.sqrt x ^ 2 = x := Real.sq_sqrt hx
  have key : |x - 1| = |Real.sqrt x - 1| * (Real.sqrt x + 1) := by
    have hfac : x - 1 = (Real.sqrt x - 1) * (Real.sqrt x + 1) := by nlinarith [hsq]
    rw [hfac, abs_mul, abs_of_nonneg (by linarith : (0 : ℝ) ≤ Real.sqrt x + 1)]
  rw [key]
  calc |Real.sqrt x - 1| = |Real.sqrt x - 1| * 1 := (mul_one _).symm
    _ ≤ |Real.sqrt x - 1| * (Real.sqrt x + 1) :=
        mul_le_mul_of_nonneg_left (by linarith) (abs_nonneg _)

/-- On a vector of positive norm, canonicalization divides by the root of
the sum of squares and rounds. -/
theorem canonicalizeVector_eq_of_pos (v : List ℝ) (h : 0 < sumSq v) :
    canonicalizeVector v = v.map (fun x => round6 (x / Real.sqrt (sumSq v))) := by
  unfold canonicalizeVector l2norm
  rw [if_pos (Real.sqrt_pos.mpr h), List.map_map]
  rfl

/-- Comparison of `a / √S` against an upper bound, by squaring. -/
theorem div_sqrt_lt (a b S : ℝ) (hS : 0 < S) (ha : 0 ≤ a) (hb : 0 < b)
    (h : a ^ 2 < b ^ 2 * S) : a / Real.sqrt S < b := by
  have hsp : 0 < Real.sqrt S := Real.sqrt_pos.mpr hS
  rw [div_lt_iff hsp]
  have hbs : 0 ≤ b * Real.sqrt S := by positivity
  refine lt_of_pow_lt_pow_left 2 hbs ?_
  rw [mul_pow, Real.sq_sqrt hS.le]
  exact h

/-- Comparison of `a / √S` against a lower bound, by squaring. -/
theorem lt_div_sqrt (a b S : ℝ) (hS : 0 < S) (hb : 0 ≤ b) (ha : 0 ≤ a)
    (h : b ^ 2 * S < a ^ 2) : b < a / Real.sqrt S := by
  have hsp : 0 < Real.sqrt S := Real.sqrt_pos.mpr hS
  rw [lt_div_iff hsp]
  refine lt_of_pow_lt_pow_left 2 ha ?_
  rw [mul_pow, Real.sq_sqrt hS.le]
  exact h

/-- Six-decimal rounding of `x / √S`, decided by two rational
inequalities on squares. -/
theorem round6_div_sqrt_eq (x S : ℝ) (m : ℤ) (hS : 0 < S) (hx : 0 ≤ x)
    (hm : 0 ≤ (m : ℝ) - 1 / 2)
    (hlow : ((m : ℝ) - 1 / 2) ^ 2 * S < (10 ^ 6 * x) ^ 2)
    (hhigh : (10 ^ 6 * x) ^ 2 < ((m : ℝ) + 1 / 2) ^ 2 * S) :
    round6 (x / Real.sqrt S) = (m : ℝ) / 10 ^ 6 := by
  unfold round6
  have hy : (10 : ℝ) ^ 6 * (x / Real.sqrt S) = (10 ^ 6 * x) / Real.sqrt S := by
    ring
  rw [hy]
  have hxn : (0 : ℝ) ≤ 10 ^ 6 * x := by positivity
  have h1 : (m : ℝ) - 1 / 2 < (10 ^ 6 * x) / Real.sqrt S :=
    lt_div_sqrt _ _ S hS hm hxn hlow
  have h2 : (10 ^ 6 * x) / Real.sqrt S < (m : ℝ) + 1 / 2 :=
    div_sqrt_lt _ _ S hS hxn (by linarith) hhigh
  rw [rhe_eq_of_bounds _ m h1 h2]

/-! ## Claim C8: canonical vectors are approximately unit -/

/-- Claim C8: for every nonzero input vector the canonical vector has L2
norm within `dim / 500000` of 1 (each of the `dim` components moves by at
most half a rounding step of `10⁻⁶`, a concrete reading of "within rounding
tolerance"), while the zero vector passes through canonicalization
unchanged. -/
theorem C8_canonical_norm (v : List ℝ) :
    (sumSq v ≠ 0 →
      |l2norm (canonicalizeVector v) - 1| ≤ (v.length : ℝ) / 500000) ∧
    (sumSq v = 0 → canonicalizeVector v = v) := by
  constructor
  · intro hne
    have hpos : 0 < sumSq v := lt_of_le_of_ne (sumSq_nonneg v) (Ne.symm hne)
    have hcanon := canonicalizeVector_eq_of_pos v hpos
    have hw : canonicalizeVector v =
        (v.map (fun x => x / Real.sqrt (sumSq v))).map round6 := by
      rw [hcanon, List.map_map]
      rfl
    have hsu : sumSq (v.map (fun x => x / Real.sqrt (sumSq v))) = 1 := by
      rw [sumSq_map_div, Real.sq_sqrt hpos.le, div_self hne]
    have hf : List.Forall₂ (fun a b => |a - b| ≤ 1 / 2 / 10 ^ 6 ∧ |b| ≤ 1)
        ((v.map (fun x => x / Real.sqrt (sumSq v))).map round6)
        (v.map (fun x => x / Real.sqrt (sumSq v))) := by
      rw [List.forall₂_map_left_iff, List.forall₂_same]
      intro x hx
      refine ⟨abs_round6_sub x, ?_⟩
      have hsq := sq_le_sumSq _ x hx
      rw [hsu] at hsq
      exact (sq_le_one_iff_abs_le_one x).mp hsq
    have hbound := sumSq_sub_le (1 / 2 / 10 ^ 6) (by norm_num) _ _ hf
    rw [hsu] at hbound
    have hlen : ((((v.map (fun x => x / Real.sqrt (sumSq v))).map round6)).length : ℝ) =
        (v.length : ℝ) := by
      simp
    rw [hlen] at hbound
    have hs8 := sqrt_near_one
      (sumSq ((v.map (fun x => x / Real.sqrt (sumSq v))).map round6)) (sumSq_nonneg _)
    unfold l2norm
    rw [hw]
    calc |Real.sqrt (sumSq ((v.map (fun x => x / Real.sqrt (sumSq v))).map round6)) - 1|
        ≤ |sumSq ((v.map (fun x => x / Real.sqrt (sumSq v))).map round6) - 1| := hs8
      _ ≤ (v.length : ℝ) * (2 * (1 / 2 / 10 ^ 6) + (1 / 2 / 10 ^ 6) ^ 2) := hbound
      _ ≤ (v.length : ℝ) / 500000 := by
          have hvn : (0 : ℝ) ≤ (v.length : ℝ) := Nat.cast_nonneg _
          nlinarith
  · intro h0
    have hz := eq_zero_of_sumSq_eq_zero v h0
    unfold canonicalizeVector l2norm
    rw [h0, Real.sqrt_zero, if_neg (lt_irrefl 0)]
    have hfix : ∀ x ∈ v, round6 x = x := by
      intro x hx
      rw [hz x hx]
      have h00 := round6_grid 0
      simpa using h00
    calc v.map round6 = v.map id := List.map_congr_left hfix
      _ = v := List.map_id v

/-- Witness for C8: the vector `[3, 4]` has nonzero sum of squares, and its
canonical form `[0.6, 0.8]` is within tolerance of unit norm. -/
theorem C8_witness :
    sumSq [(3 : ℝ), 4] ≠ 0 ∧
      |l2norm (canonicalizeVector [(3 : ℝ), 4]) - 1| ≤
        (([(3 : ℝ), 4].length : ℕ) : ℝ) / 500000 :=
  ⟨by norm_num [sumSq], (C8_canonical_norm [(3 : ℝ), 4]).1 (by norm_num [sumSq])⟩

/-! ## Claim C7: canonicalization idempotence -/

/-- A canonical vector of exactly unit norm re-canonicalizes to itself. -/
theorem canonicalizeVector_fixed_of_unit (v : List ℝ)
    (h : sumSq (canonicalizeVector v) = 1) :
    canonicalizeVector (canonicalizeVector v) = canonicalizeVector v := by
  have hshape : canonicalizeVector v =
      (if l2norm v > 0 then v.map (fun x => x / l2norm v) else v).map round6 := rfl
  have hgrid : ∀ x ∈ canonicalizeVector v, round6 x = x := by
    intro x hx
    rw [hshape, List.mem_map] at hx
    obtain ⟨y, hy, hxy⟩ := hx
    rw [← hxy]
    exact round6_idem y
  have hexp := canonicalizeVector_eq_of_pos (canonicalizeVector v) (by rw [h]; norm_num)
  rw [hexp, h, Real.sqrt_one]
  calc (canonicalizeVector v).map (fun x => round6 (x / 1)) =
      (canonicalizeVector v).map id := by
        refine List.map_congr_left ?_
        intro a ha
        rw [div_one]
        exact hgrid a ha
    _ = canonicalizeVector v := List.map_id _

/-- Claim C7 amended: canonicalization is idempotent on every vector whose
canonical form has exactly unit norm (its components then sit on the
rounding grid and survive re-normalization); in general it is not — the
canonical norm is only approximately 1, and dividing by it can push a
component across a rounding midpoint, changing the canonical vector and
hence the hash of its byte encoding (see the counterexample at
`[1494, 619]`). -/
theorem C7_canonicalize_idempotent_of_unit (v : List ℝ)
    (h : sumSq (canonicalizeVector v) = 1) :
    canonicalizeVector (canonicalizeVector v) = canonicalizeVector v :=
  canonicalizeVector_fixed_of_unit v h

/-- Witness for C7: `[3, 4]` canonicalizes to `[0.6, 0.8]`, exactly unit,
hence idempotent. -/
theorem C7_witness :
    sumSq (canonicalizeVector [(3 : ℝ), 4]) = 1 ∧
      canonicalizeVector (canonicalizeVector [(3 : ℝ), 4]) =
        canonicalizeVector [(3 : ℝ), 4] := by
  have hs : sumSq [(3 : ℝ), 4] = 25 := by norm_num [sumSq]
  have hpos : (0 : ℝ) < sumSq [(3 : ℝ), 4] := by rw [hs]; norm_num
  have hc1 : canonicalizeVector [(3 : ℝ), 4] =
      [round6 (3 / Real.sqrt 25), round6 (4 / Real.sqrt 25)] := by
    rw [canonicalizeVector_eq_of_pos _ hpos, hs]
    rfl
  have hr1 : round6 ((3 : ℝ) / Real.sqrt 25) = ((600000 : ℤ) : ℝ) / 10 ^ 6 :=
    round6_div_sqrt_eq 3 25 600000 (by norm_num) (by norm_num) (by norm_num)
      (by norm_num) (by norm_num)
  have hr2 : round6 ((4 : ℝ) / Real.sqrt 25) = ((800000 : ℤ) : ℝ) / 10 ^ 6 :=
    round6_div_sqrt_eq 4 25 800000 (by norm_num) (by norm_num) (by norm_num)
      (by norm_num) (by norm_num)
  have hunit : sumSq (canonicalizeVector [(3 : ℝ), 4]) = 1 := by
    rw [hc1, hr1, hr2]
    rw [sumSq_cons, sumSq_cons]
    unfold sumSq
    push_cast
    norm_num
  exact ⟨hunit, C7_canonicalize_idempotent_of_unit [(3 : ℝ), 4] hunit⟩

/-- Claim C7 counterexample: canonicalizing `[1494, 619]` gives the grid
vector `[0.923843, 0.382770]` (both normalized components fall just below a
rounding midpoint), whose norm is slightly below 1; re-canonicalizing
divides by that norm and pushes the first component across the midpoint to
`0.923844`, so `canonicalize(canonicalize(v).vector) ≠ canonicalize(v)` —
the vectors differ, hence so do the hashes of their byte encodings. -/
theorem C7_counterexample :
    canonicalizeVector (canonicalizeVector [(1494 : ℝ), 619]) ≠
      canonicalizeVector [(1494 : ℝ), 619] := by
  have hs : sumSq [(1494 : ℝ), 619] = 2615197 := by norm_num [sumSq]
  have hpos : (0 : ℝ) < sumSq [(1494 : ℝ), 619] := by rw [hs]; norm_num
  have hc1 : canonicalizeVector [(1494 : ℝ), 619] =
      [round6 (1494 / Real.sqrt 2615197), round6 (619 / Real.sqrt 2615197)] := by
    rw [canonicalizeVector_eq_of_pos _ hpos, hs]
    rfl
  have hr1 : round6 ((1494 : ℝ) / Real.sqrt 2615197) = ((923843 : ℤ) : ℝ) / 10 ^ 6 :=
    round6_div_sqrt_eq 1494 2615197 923843 (by norm_num) (by norm_num) (by norm_num)
      (by norm_num) (by norm_num)
  have hr2 : round6 ((619 : ℝ) / Real.sqrt 2615197) = ((382770 : ℤ) : ℝ) / 10 ^ 6 :=
    round6_div_sqrt_eq 619 2615197 382770 (by norm_num) (by norm_num) (by norm_num)
      (by norm_num) (by norm_num)
  have hw : canonicalizeVector [(1494 : ℝ), 619] =
      [((923843 : ℤ) : ℝ) / 10 ^ 6, ((382770 : ℤ) : ℝ) / 10 ^ 6] := by
    rw [hc1, hr1, hr2]
  have hsw : sumSq [((923843 : ℤ) : ℝ) / 10 ^ 6, ((382770 : ℤ) : ℝ) / 10 ^ 6] =
      999998761549 / 10 ^ 12 := by
    rw [sumSq_cons, sumSq_cons]
    unfold sumSq
    push_cast
    norm_num
  have hposw : (0 : ℝ) <
      sumSq [((923843 : ℤ) : ℝ) / 10 ^ 6, ((382770 : ℤ) : ℝ) / 10 ^ 6] := by
    rw [hsw]
    norm_num
  have hc2 : canonicalizeVector [((923843 : ℤ) : ℝ) / 10 ^ 6, ((382770 : ℤ) : ℝ) / 10 ^ 6] =
      [round6 ((((923843 : ℤ) : ℝ) / 10 ^ 6) / Real.sqrt (999998761549 / 10 ^ 12)),
       round6 ((((382770 : ℤ) : ℝ) / 10 ^ 6) / Real.sqrt (999998761549 / 10 ^ 12))] := by
    rw [canonicalizeVector_eq_of_pos _ hposw, hsw]
    rfl
  have hcross : round6 ((((923843 : ℤ) : ℝ) / 10 ^ 6) / Real.sqrt (999998761549 / 10 ^ 12)) =
      ((923844 : ℤ) : ℝ) / 10 ^ 6 :=
    round6_div_sqrt_eq (((923843 : ℤ) : ℝ) / 10 ^ 6) (999998761549 / 10 ^ 12) 923844
      (by norm_num) (by norm_num) (by norm_num) (by norm_num) (by norm_num)
  rw [hw, hc2, hcross]
  intro heq
  injection heq with h1 h2
  rw [div_left_inj' (by norm_num : (10 : ℝ) ^ 6 ≠ 0)] at h1
  exact absurd h1 (by norm_num)

end BitTemple
